import Mathlib

/-!
Verification of the BOM-explosion core of the MaterialRequirementsCalculations
repository.

The Python sources are embedded shallowly:
* matrices are functions `ℕ → ℕ → ℚ` together with explicit dimensions `n`
  (rows) and `m` (columns); float arithmetic is modelled by exact rationals;
* the imperative loops become `List.foldl` over `List.range`, threading the
  mutated state explicitly;
* `raise` / early `return False` become `Except` / `Option` results.
-/

/-- Pointwise update of one table cell, modelling `table[i, j] = v`. -/
def upd (f : ℕ → ℕ → ℚ) (i j : ℕ) (v : ℚ) : ℕ → ℕ → ℚ :=
  fun i' j' => if i' = i ∧ j' = j then v else f i' j'

/-- The all-zero table, modelling `np.zeros((n, m))`. -/
def zeroTable : ℕ → ℕ → ℚ := fun _ _ => 0

/-- Sum of the non-zero entries of column `j`, modelling
`column = table[:, j]; np.sum(column[column != 0])` in the validators. -/
def nonzeroColSum (P : ℕ → ℕ → ℚ) (n j : ℕ) : ℚ :=
  (((List.range n).map fun i => P i j).filter fun x => decide (x ≠ 0)).sum

/-- Numpy's `np.isclose(a, b, atol=1e-6)` with its default `rtol=1e-5`:
`|a - b| <= atol + rtol * |b|`. -/
def npIsClose (a b : ℚ) : Bool :=
  decide (|a - b| ≤ 1 / 1000000 + 1 / 100000 * |b|)

/-- The column scan of `validate_percentage_table` /
`_validate_percentage_table`: the first column whose non-zero sum is not close
to 100, together with that sum (the data of `ColumnSumError`), or `none` when
every column passes. -/
def findBadColumn (P : ℕ → ℕ → ℚ) (n : ℕ) : List ℕ → Option (ℕ × ℚ)
  | [] => none
  | j :: rest =>
    let s := nonzeroColSum P n j
    if npIsClose s 100 then findBadColumn P n rest else some (j, s)

/-- `validate_percentage_table` (textually identical in
`process_product_data.py` and `material_requirements_planning.py`): `True` iff
no column fails the non-zero-sum check.  The source's 2-dimensionality check is
intrinsic to the embedding: a table is a function plus its two dimensions. -/
def validate_percentage_table (P : ℕ → ℕ → ℚ) (n m : ℕ) : Bool :=
  (findBadColumn P n (List.range m)).isNone

/-- The state of one explosion run: the percentage table and the target table.
`_calculate_material_requirements` only ever assigns into `target_table`;
keeping both tables in the state lets the frame property be stated. -/
structure EngState where
  perc : ℕ → ℕ → ℚ
  tgt : ℕ → ℕ → ℚ

/-- Write `target_table[i, j] = v`. -/
def writeTgt (σ : EngState) (i j : ℕ) (v : ℚ) : EngState :=
  ⟨σ.perc, upd σ.tgt i j v⟩

/-- Body of the Step-1 loop of `_calculate_material_requirements`:
`target_table[i, m-1] = target_amount * percentage_table[i, m-1] / 100.0`
followed by `mix_m_total += target_table[i, m-1]`. -/
def step1Body (m : ℕ) (T : ℚ) (st : EngState × ℚ) (i : ℕ) : EngState × ℚ :=
  let σ := writeTgt st.1 i (m - 1) (T * st.1.perc i (m - 1) / 100)
  (σ, st.2 + σ.tgt i (m - 1))

/-- The engine state and `mix_m_total` after the Step-1 loop
`for i in range(n)`. -/
def step1State (P : ℕ → ℕ → ℚ) (n m : ℕ) (T : ℚ) : EngState × ℚ :=
  (List.range n).foldl (step1Body m T) (⟨P, zeroTable⟩, 0)

/-- One Step-2 iteration of `_calculate_material_requirements` (one `j` of
`range(m-2, -1, -1)`): decrement `current_table_row_with_mix`, set
`mix_j_amount = sum(target_table[current_table_row_with_mix, :])`, fill column
`j` proportionally for `i in range(min(n+j+1, target_table.shape[0]))`, then
overwrite the mix-row cell of column `j` with `mix_j_amount`. -/
def step2Body (n m : ℕ) (st : EngState × ℕ) (j : ℕ) : EngState × ℕ :=
  let row := st.2 - 1
  let mixAmt := ((List.range m).map fun k => st.1.tgt row k).sum
  let σ1 := (List.range (min (n + j + 1) n)).foldl
    (fun σ i => writeTgt σ i j (mixAmt * σ.perc i j / 100)) st.1
  (writeTgt σ1 row j mixAmt, row)

/-- `_calculate_material_requirements` as a state transformer: the final engine
state (for both outcomes) plus either success or the data of the raised
`ValueError` (`mix_m_total`, `target_amount`).  The success branch first
re-assigns `target_table[i, m-1] = mix_m_total` with the leftover loop index
`i = n-1`. -/
def calcRun (P : ℕ → ℕ → ℚ) (n m : ℕ) (T : ℚ) :
    EngState × Except (ℚ × ℚ) Unit :=
  let st1 := step1State P n m T
  if st1.2 = T then
    (((List.range (m - 1)).reverse.foldl (step2Body n m)
        (writeTgt st1.1 (n - 1) (m - 1) st1.2, n - 1)).1, Except.ok ())
  else
    (st1.1, Except.error (st1.2, T))

/-- The function `_calculate_material_requirements`
(`material_requirements_calculations.py`): the returned target table, or the
`ValueError` data when `mix_m_total` is not exactly equal to the target. -/
def calculate_material_requirements (P : ℕ → ℕ → ℚ) (n m : ℕ) (T : ℚ) :
    Except (ℚ × ℚ) (ℕ → ℕ → ℚ) :=
  match calcRun P n m T with
  | (σ, Except.ok _) => Except.ok σ.tgt
  | (_, Except.error e) => Except.error e

/-- One Step-2 iteration of the planning variant: `mix_j_amount` accumulates
`target_table[n+j, k]` for `k in range(j+1, m)` under the guard
`if n+j < target_table.shape[0]`, then column `j` is filled for
`i in range(min(n+j+1, target_table.shape[0]))` and the mix-row write is under
the same guard. -/
def planStep2Body (P : ℕ → ℕ → ℚ) (n m : ℕ) (A : ℕ → ℕ → ℚ) (j : ℕ) :
    ℕ → ℕ → ℚ :=
  let mixAmt := (((List.range m).drop (j + 1)).map
    fun k => if n + j < n then A (n + j) k else 0).sum
  let A1 := (List.range (min (n + j + 1) n)).foldl
    (fun B i => upd B i j (mixAmt * P i j / 100)) A
  if n + j < n then upd A1 (n + j) j mixAmt else A1

/-- The method `calculate_material_requirements` of
`material_requirements_planning.py`:
validate, Step 1 (no `mix_m_total` check and no diagonal overwrite in this
variant), then the backward sweep. -/
def planning_calculate_material_requirements (P : ℕ → ℕ → ℚ) (n m : ℕ)
    (T : ℚ) : Except String (ℕ → ℕ → ℚ) :=
  if validate_percentage_table P n m then
    Except.ok ((List.range (m - 1)).reverse.foldl (planStep2Body P n m)
      ((List.range n).foldl
        (fun A i => upd A i (m - 1) (T * P i (m - 1) / 100)) zeroTable))
  else
    Except.error "Invalid percentage table"

/-- The method `get_raw_material_totals`:
`np.sum(target_table[:raw_material_count, :], axis=1)` — the first
`raw_material_count` rows, each summed across all `m` columns. -/
def get_raw_material_totals (A : ℕ → ℕ → ℚ) (rawCount m : ℕ) : List ℚ :=
  (List.range rawCount).map fun i => ((List.range m).map fun j => A i j).sum

/-- The total of the final-mix contributions
`target_amount * P[i, m-1] / 100` — the value `mix_m_total` accumulates. -/
def mixTotal (P : ℕ → ℕ → ℚ) (n m : ℕ) (T : ℚ) : ℚ :=
  ∑ i ∈ Finset.range n, T * P i (m - 1) / 100

/-- The per-mix required amount as the spec defines it: the target amount for
the final mix, otherwise the sum over the later columns of mix `j`'s row. -/
def requiredOf (A : ℕ → ℕ → ℚ) (n m : ℕ) (T : ℚ) (j : ℕ) : ℚ :=
  if j + 1 = m then T else ∑ k ∈ Finset.Ico (j + 1) m, A (n - m + j) k

/-- A 2×1 table: one raw material at 100 % and the single (final) mix row at
0 %.  It satisfies both invariants and its column sums to exactly 100. -/
def exConserve : ℕ → ℕ → ℚ := fun i j => if i = 0 ∧ j = 0 then 100 else 0

/-- A 1×1 table whose only column sums to `100 + 5e-7`: within the 1e-6
validation tolerance but not exactly 100. -/
def exTol : ℕ → ℕ → ℚ := fun i j =>
  if i = 0 ∧ j = 0 then 100 + 1 / 2000000 else 0

/-- A 1×1 table whose only column sums to `100.0005`: off by more than 1e-6
but within `np.isclose`'s effective tolerance `1e-6 + 1e-5·100`. -/
def exClose : ℕ → ℕ → ℚ := fun i j =>
  if i = 0 ∧ j = 0 then 100 + 1 / 2000 else 0

/-- A 1×1 table whose only column sums to 95 (the spec's rejection example). -/
def ex95 : ℕ → ℕ → ℚ := fun i j => if i = 0 ∧ j = 0 then 95 else 0

/-- A 2×1 table in which the single mix consumes itself at 50 % (violating the
precedence invariant) and a raw material at 50 %; the column sums to 100. -/
def exSelf : ℕ → ℕ → ℚ := fun i j => if j = 0 ∧ i ≤ 1 then 50 else 0

/-- The 9×4 example table of the article (`create_example_table`). -/
def articleRows : List (List ℚ) :=
  [[10, 0, 25, 0], [20, 0, 0, 20], [0, 50, 0, 25], [0, 0, 25, 5],
   [70, 30, 0, 0], [0, 20, 25, 20], [0, 0, 25, 10], [0, 0, 0, 20],
   [0, 0, 0, 0]]

/-- The article table as a function. -/
def exArticle : ℕ → ℕ → ℚ := fun i j =>
  ((articleRows.get? i).bind fun r => r.get? j).getD 0

/-- Whether a run raised. -/
def isErrorE {ε α : Type} : Except ε α → Bool
  | Except.ok _ => false
  | Except.error _ => true

/-- The index list `[k-1, k-2, ..., 0]` of `range(k-1, -1, -1)`. -/
def descList : ℕ → List ℕ
  | 0 => []
  | t + 1 => t :: descList t

/-- Invariant of the Step-2 backward sweep: columns `≥ t` already carry their
final values, columns `< t` are still zero, rows `≥ n` are zero, and the
current mix row is `n - m + t`. -/
def SweepInv (P : ℕ → ℕ → ℚ) (n m : ℕ) (T : ℚ) (t : ℕ) (σ : EngState) :
    Prop :=
  σ.perc = P ∧
  (∀ i j, j < t → σ.tgt i j = 0) ∧
  (∀ i j, n ≤ i → σ.tgt i j = 0) ∧
  (∀ i, i < n →
    σ.tgt i (m - 1) = if i = n - 1 then T else T * P i (m - 1) / 100) ∧
  (∀ j, t ≤ j → j + 1 < m →
    (∀ i, i < n → i ≠ n - m + j →
      σ.tgt i j = σ.tgt (n - m + j) j * P i j / 100) ∧
    σ.tgt (n - m + j) j = ∑ k ∈ Finset.Ico (j + 1) m, σ.tgt (n - m + j) k)

/-- A 3×2 table: one raw material and two mixes.  Mix 1 is 100 % raw
material 1; mix 2 (the final product) is 50 % raw material 1 and 50 % mix 1.
Both invariants hold and both columns sum to exactly 100. -/
def ex3 : ℕ → ℕ → ℚ := fun i j =>
  if i = 0 ∧ j = 0 then 100
  else if i = 0 ∧ j = 1 then 50
  else if i = 1 ∧ j = 1 then 50 else 0

lemma upd_self (f : ℕ → ℕ → ℚ) (i j : ℕ) (v : ℚ) : upd f i j v i j = v := by
  simp [upd]

lemma upd_other (f : ℕ → ℕ → ℚ) (i j : ℕ) (v : ℚ) (i' j' : ℕ)
    (h : ¬(i' = i ∧ j' = j)) : upd f i j v i' j' = f i' j' := by
  simp only [upd, if_neg h]

lemma sum_map_range (f : ℕ → ℚ) : ∀ k : ℕ,
    ((List.range k).map f).sum = ∑ i ∈ Finset.range k, f i := by
  intro k
  induction k with
  | zero => simp
  | succ k ih => simp [List.range_succ, Finset.sum_range_succ, ih]

lemma range_reverse_eq_descList : ∀ k : ℕ,
    (List.range k).reverse = descList k := by
  intro k
  induction k with
  | zero => rfl
  | succ k ih => simp [List.range_succ, descList, ih]

lemma step1_char (P : ℕ → ℕ → ℚ) (m : ℕ) (T : ℚ) : ∀ N : ℕ,
    ((List.range N).foldl (step1Body m T)
        ((⟨P, zeroTable⟩ : EngState), 0)).1.perc = P ∧
    (∀ i j : ℕ,
      ((List.range N).foldl (step1Body m T)
          ((⟨P, zeroTable⟩ : EngState), 0)).1.tgt i j
        = if j = m - 1 ∧ i < N then T * P i (m - 1) / 100 else 0) ∧
    ((List.range N).foldl (step1Body m T) ((⟨P, zeroTable⟩ : EngState), 0)).2
      = ∑ i ∈ Finset.range N, T * P i (m - 1) / 100 := by
  intro N
  induction N with
  | zero =>
    refine ⟨rfl, fun i j => ?_, by simp⟩
    simp [zeroTable]
  | succ N ih =>
    obtain ⟨ihp, iht, ihs⟩ := ih
    rw [List.range_succ, List.foldl_append]
    simp only [List.foldl_cons, List.foldl_nil]
    refine ⟨by simp [step1Body, writeTgt, ihp], fun i j => ?_, ?_⟩
    · simp only [step1Body, writeTgt, ihp]
      by_cases hij : i = N ∧ j = m - 1
      · obtain ⟨hi, hj⟩ := hij
        subst hi hj
        rw [upd_self]
        simp [Nat.lt_succ_self]
      · rw [upd_other _ _ _ _ _ _ hij, iht i j]
        by_cases hjm : j = m - 1
        · subst hjm
          have hiN : ¬ i = N := fun h => hij ⟨h, rfl⟩
          have : i < N ↔ i < N + 1 := by omega
          simp [this]
        · simp [hjm]
    · simp only [step1Body, writeTgt, ihp, ihs]
      rw [upd_self, Finset.sum_range_succ]

lemma step1State_perc (P : ℕ → ℕ → ℚ) (n m : ℕ) (T : ℚ) :
    (step1State P n m T).1.perc = P :=
  (step1_char P m T n).1

lemma step1State_tgt (P : ℕ → ℕ → ℚ) (n m : ℕ) (T : ℚ) (i j : ℕ) :
    (step1State P n m T).1.tgt i j
      = if j = m - 1 ∧ i < n then T * P i (m - 1) / 100 else 0 :=
  (step1_char P m T n).2.1 i j

lemma step1State_total (P : ℕ → ℕ → ℚ) (n m : ℕ) (T : ℚ) :
    (step1State P n m T).2 = mixTotal P n m T :=
  (step1_char P m T n).2.2

lemma writeTgt_perc (σ : EngState) (i j : ℕ) (v : ℚ) :
    (writeTgt σ i j v).perc = σ.perc := rfl

lemma writeTgt_tgt (σ : EngState) (i j : ℕ) (v : ℚ) :
    (writeTgt σ i j v).tgt = upd σ.tgt i j v := rfl

lemma innerFold_char (P : ℕ → ℕ → ℚ) (mixAmt : ℚ) (t : ℕ) : ∀ (N : ℕ)
    (σ : EngState), σ.perc = P →
    ((List.range N).foldl
        (fun σ i => writeTgt σ i t (mixAmt * σ.perc i t / 100)) σ).perc = P ∧
    ∀ i j : ℕ,
      ((List.range N).foldl
          (fun σ i => writeTgt σ i t (mixAmt * σ.perc i t / 100)) σ).tgt i j
        = if j = t ∧ i < N then mixAmt * P i t / 100 else σ.tgt i j := by
  intro N
  induction N with
  | zero =>
    intro σ hσ
    refine ⟨hσ, fun i j => by simp⟩
  | succ N ih =>
    intro σ hσ
    obtain ⟨ihp, iht⟩ := ih σ hσ
    rw [List.range_succ, List.foldl_append]
    simp only [List.foldl_cons, List.foldl_nil]
    refine ⟨by rw [writeTgt_perc]; exact ihp, fun i j => ?_⟩
    rw [writeTgt_tgt, ihp]
    by_cases hij : i = N ∧ j = t
    · obtain ⟨hi, hj⟩ := hij
      subst hi hj
      rw [upd_self]
      simp [Nat.lt_succ_self]
    · rw [upd_other _ _ _ _ _ _ hij, iht i j]
      by_cases hjt : j = t
      · subst hjt
        have hiN : ¬ i = N := fun h => hij ⟨h, rfl⟩
        have : i < N ↔ i < N + 1 := by omega
        simp [this]
      · simp [hjt]

lemma step2Body_preserves (P : ℕ → ℕ → ℚ) (n m : ℕ) (T : ℚ)
    (hmn : m ≤ n) (t : ℕ) (ht : t + 2 ≤ m) (σ : EngState)
    (hσ : SweepInv P n m T (t + 1) σ) :
    SweepInv P n m T t (step2Body n m (σ, n - m + (t + 1)) t).1 ∧
    (step2Body n m (σ, n - m + (t + 1)) t).2 = n - m + t := by
  obtain ⟨hperc, hlow, hrows, hlast, hcols⟩ := hσ
  have hrow : n - m + (t + 1) - 1 = n - m + t := by omega
  have hrowlt : n - m + t < n := by omega
  have hminn : min (n + t + 1) n = n := by omega
  simp only [step2Body, hrow, hminn]
  set κ := ((List.range m).map fun k => σ.tgt (n - m + t) k).sum with hκ
  obtain ⟨h1p, h1t⟩ := innerFold_char P κ t n σ hperc
  have hκval : κ = ∑ k ∈ Finset.Ico (t + 1) m, σ.tgt (n - m + t) k := by
    rw [hκ, sum_map_range]
    rw [Finset.range_eq_Ico,
      ← Finset.sum_Ico_consecutive _ (Nat.zero_le (t + 1)) (by omega)]
    have hz : ∑ k ∈ Finset.Ico 0 (t + 1), σ.tgt (n - m + t) k = 0 :=
      Finset.sum_eq_zero fun k hk =>
        hlow _ _ (Finset.mem_Ico.mp hk).2
    rw [hz, zero_add]
  set σ₂ := writeTgt ((List.range n).foldl
      (fun σ i => writeTgt σ i t (κ * σ.perc i t / 100)) σ)
      (n - m + t) t κ with hσ₂
  have e2 : σ₂.tgt (n - m + t) t = κ := by
    rw [hσ₂, writeTgt_tgt, upd_self]
  have e1 : ∀ i : ℕ, i < n → i ≠ n - m + t → σ₂.tgt i t = κ * P i t / 100 := by
    intro i hi hine
    rw [hσ₂, writeTgt_tgt, upd_other _ _ _ _ _ _ (fun h => hine h.1), h1t,
      if_pos ⟨rfl, hi⟩]
  have e3 : ∀ i j : ℕ, j ≠ t → σ₂.tgt i j = σ.tgt i j := by
    intro i j hj
    rw [hσ₂, writeTgt_tgt, upd_other _ _ _ _ _ _ (fun h => hj h.2), h1t,
      if_neg (fun h => hj h.1)]
  have e4 : ∀ i j : ℕ, n ≤ i → σ₂.tgt i j = σ.tgt i j := by
    intro i j hi
    rw [hσ₂, writeTgt_tgt,
      upd_other _ _ _ _ _ _ (fun h => by omega), h1t,
      if_neg (fun h => by omega)]
  refine ⟨⟨by rw [hσ₂, writeTgt_perc]; exact h1p, ?_, ?_, ?_, ?_⟩, trivial⟩
  · intro i j hj
    rw [e3 i j (by omega)]
    exact hlow i j (by omega)
  · intro i j hi
    rw [e4 i j hi]
    exact hrows i j hi
  · intro i hi
    rw [e3 i (m - 1) (by omega)]
    exact hlast i hi
  · intro j hjt hjm
    by_cases hjeq : j = t
    · subst hjeq
      refine ⟨fun i hi hine => ?_, ?_⟩
      · rw [e1 i hi hine, e2]
      · rw [e2, hκval]
        exact Finset.sum_congr rfl fun k hk =>
          (e3 (n - m + j) k (by
            have := (Finset.mem_Ico.mp hk).1
            omega)).symm
    · obtain ⟨hprop, hreq⟩ := hcols j (by omega) hjm
      have hdne : n - m + j ≠ n - m + t := by omega
      refine ⟨fun i hi hine => ?_, ?_⟩
      · rw [e3 i j hjeq, e3 (n - m + j) j hjeq]
        exact hprop i hi hine
      · rw [e3 (n - m + j) j hjeq, hreq]
        exact Finset.sum_congr rfl fun k hk =>
          (e3 (n - m + j) k (by
            have := (Finset.mem_Ico.mp hk).1
            omega)).symm

lemma sweepInv_init (P : ℕ → ℕ → ℚ) (n m : ℕ) (T : ℚ) (hm : 1 ≤ m)
    (hmn : m ≤ n) (hsucc : (step1State P n m T).2 = T) :
    SweepInv P n m T (m - 1)
      (writeTgt (step1State P n m T).1 (n - 1) (m - 1)
        (step1State P n m T).2) := by
  rw [hsucc]
  have hn : 1 ≤ n := le_trans hm hmn
  refine ⟨by rw [writeTgt_perc]; exact step1State_perc P n m T, ?_, ?_, ?_, ?_⟩
  · intro i j hj
    rw [writeTgt_tgt, upd_other _ _ _ _ _ _ (fun h => by omega),
      step1State_tgt, if_neg (by omega)]
  · intro i j hi
    rw [writeTgt_tgt, upd_other _ _ _ _ _ _ (fun h => by omega),
      step1State_tgt, if_neg (by omega)]
  · intro i hi
    by_cases hi1 : i = n - 1
    · subst hi1
      rw [writeTgt_tgt, upd_self, if_pos rfl]
    · rw [writeTgt_tgt, upd_other _ _ _ _ _ _ (fun h => hi1 h.1),
        step1State_tgt, if_pos ⟨rfl, hi⟩, if_neg hi1]
  · intro j hjt hjm
    omega

lemma step2_fold_inv (P : ℕ → ℕ → ℚ) (n m : ℕ) (T : ℚ) (hmn : m ≤ n) :
    ∀ t : ℕ, t + 1 ≤ m → ∀ σ : EngState, SweepInv P n m T t σ →
      SweepInv P n m T 0
        ((descList t).foldl (step2Body n m) (σ, n - m + t)).1 := by
  intro t
  induction t with
  | zero => intro _ σ h; exact h
  | succ t ih =>
    intro ht σ h
    have hstep := step2Body_preserves P n m T hmn t (by omega) σ h
    have hpair : step2Body n m (σ, n - m + (t + 1)) t
        = ((step2Body n m (σ, n - m + (t + 1)) t).1, n - m + t) := by
      rw [← hstep.2]
    show SweepInv P n m T 0
      ((descList (t + 1)).foldl (step2Body n m) (σ, n - m + (t + 1))).1
    rw [show descList (t + 1) = t :: descList t from rfl, List.foldl_cons,
      hpair]
    exact ih (by omega) _ hstep.1

lemma calc_ok_elim (P : ℕ → ℕ → ℚ) (n m : ℕ) (T : ℚ) (A : ℕ → ℕ → ℚ)
    (h : calculate_material_requirements P n m T = Except.ok A) :
    mixTotal P n m T = T ∧
    A = ((List.range (m - 1)).reverse.foldl (step2Body n m)
      (writeTgt (step1State P n m T).1 (n - 1) (m - 1)
        (step1State P n m T).2, n - 1)).1.tgt := by
  simp only [calculate_material_requirements, calcRun] at h
  by_cases hc : (step1State P n m T).2 = T
  · rw [if_pos hc] at h
    refine ⟨by rw [← step1State_total]; exact hc, (Except.ok.inj h).symm⟩
  · rw [if_neg hc] at h
    exact absurd h (by simp)

lemma calc_error_char (P : ℕ → ℕ → ℚ) (n m : ℕ) (T : ℚ) :
    calculate_material_requirements P n m T
        = Except.error (mixTotal P n m T, T) ↔ mixTotal P n m T ≠ T := by
  constructor
  · intro h hEq
    simp only [calculate_material_requirements, calcRun] at h
    rw [if_pos (by rw [step1State_total]; exact hEq)] at h
    exact absurd h (by simp)
  · intro hne
    simp only [calculate_material_requirements, calcRun]
    rw [if_neg (by rw [step1State_total]; exact hne)]
    rw [step1State_total]

lemma calc_ok_of_total (P : ℕ → ℕ → ℚ) (n m : ℕ) (T : ℚ)
    (h : mixTotal P n m T = T) :
    ∃ A, calculate_material_requirements P n m T = Except.ok A := by
  have hok : calculate_material_requirements P n m T
      = Except.ok (((List.range (m - 1)).reverse.foldl (step2Body n m)
          (writeTgt (step1State P n m T).1 (n - 1) (m - 1)
            (step1State P n m T).2, n - 1)).1.tgt) := by
    simp only [calculate_material_requirements, calcRun]
    rw [if_pos (by rw [step1State_total]; exact h)]
  exact ⟨_, hok⟩

lemma calc_final_facts (P : ℕ → ℕ → ℚ) (n m : ℕ) (T : ℚ) (A : ℕ → ℕ → ℚ)
    (hm : 1 ≤ m) (hmn : m ≤ n)
    (h : calculate_material_requirements P n m T = Except.ok A) :
    mixTotal P n m T = T ∧
    (∀ i j, n ≤ i → A i j = 0) ∧
    (∀ i, i < n →
      A i (m - 1) = if i = n - 1 then T else T * P i (m - 1) / 100) ∧
    (∀ j, j + 1 < m →
      (∀ i, i < n → i ≠ n - m + j → A i j = A (n - m + j) j * P i j / 100) ∧
      A (n - m + j) j = ∑ k ∈ Finset.Ico (j + 1) m, A (n - m + j) k) := by
  obtain ⟨htot, hA⟩ := calc_ok_elim P n m T A h
  have hsucc : (step1State P n m T).2 = T := by
    rw [step1State_total]; exact htot
  have hinit := sweepInv_init P n m T hm hmn hsucc
  have hfold := step2_fold_inv P n m T hmn (m - 1) (by omega) _ hinit
  rw [range_reverse_eq_descList] at hA
  rw [show n - m + (m - 1) = n - 1 by omega] at hfold
  obtain ⟨-, -, hrows, hlast, hcols⟩ := hfold
  rw [← hA] at hrows hlast hcols
  exact ⟨htot, hrows, hlast, fun j hj => hcols j (Nat.zero_le j) hj⟩

lemma innerFold_perc (v : ℚ) (t : ℕ) : ∀ (l : List ℕ) (σ : EngState),
    (l.foldl (fun σ i => writeTgt σ i t (v * σ.perc i t / 100)) σ).perc
      = σ.perc := by
  intro l
  induction l with
  | nil => intro σ; rfl
  | cons a l ih =>
    intro σ
    rw [List.foldl_cons, ih, writeTgt_perc]

lemma step2Body_perc (n m : ℕ) (st : EngState × ℕ) (j : ℕ) :
    (step2Body n m st j).1.perc = st.1.perc := by
  simp only [step2Body]
  rw [writeTgt_perc, innerFold_perc]

lemma step2_foldl_perc (n m : ℕ) : ∀ (js : List ℕ) (st : EngState × ℕ),
    (js.foldl (step2Body n m) st).1.perc = st.1.perc := by
  intro js
  induction js with
  | nil => intro st; rfl
  | cons a js ih =>
    intro st
    rw [List.foldl_cons, ih, step2Body_perc]

lemma calcRun_perc (P : ℕ → ℕ → ℚ) (n m : ℕ) (T : ℚ) :
    (calcRun P n m T).1.perc = P := by
  simp only [calcRun]
  by_cases hc : (step1State P n m T).2 = T
  · rw [if_pos hc]
    show ((List.range (m - 1)).reverse.foldl (step2Body n m) _).1.perc = P
    rw [step2_foldl_perc, writeTgt_perc, step1State_perc]
  · rw [if_neg hc]
    exact step1State_perc P n m T

lemma mixTotal_scale (P : ℕ → ℕ → ℚ) (n m : ℕ) (T k : ℚ) :
    mixTotal P n m (k * T) = k * mixTotal P n m T := by
  simp only [mixTotal, Finset.mul_sum]
  exact Finset.sum_congr rfl fun i _ => by ring

lemma step2_foldl_scale (P : ℕ → ℕ → ℚ) (n m : ℕ) (k : ℚ) :
    ∀ (js : List ℕ) (σ σ' : EngState) (r : ℕ),
    σ.perc = P → σ'.perc = P → (∀ i j, σ'.tgt i j = k * σ.tgt i j) →
    (∀ i j, (js.foldl (step2Body n m) (σ', r)).1.tgt i j
        = k * (js.foldl (step2Body n m) (σ, r)).1.tgt i j) := by
  intro js
  induction js with
  | nil => intro σ σ' r _ _ hrel; exact hrel
  | cons t js ih =>
    intro σ σ' r hp hp' hrel
    rw [List.foldl_cons, List.foldl_cons]
    have hsnd : (step2Body n m (σ', r) t).2 = (step2Body n m (σ, r) t).2 :=
      rfl
    have hκ : ((List.range m).map fun kk => σ'.tgt (r - 1) kk).sum
        = k * ((List.range m).map fun kk => σ.tgt (r - 1) kk).sum := by
      rw [sum_map_range, sum_map_range, Finset.mul_sum]
      exact Finset.sum_congr rfl fun kk _ => hrel (r - 1) kk
    have hbody : ∀ i j, (step2Body n m (σ', r) t).1.tgt i j
        = k * (step2Body n m (σ, r) t).1.tgt i j := by
      intro i j
      simp only [step2Body]
      set κ := ((List.range m).map fun kk => σ.tgt (r - 1) kk).sum with hκdef
      set κ' := ((List.range m).map fun kk => σ'.tgt (r - 1) kk).sum with hκdef'
      obtain ⟨-, hτ⟩ := innerFold_char P κ t (min (n + t + 1) n) σ hp
      obtain ⟨-, hτ'⟩ := innerFold_char P κ' t (min (n + t + 1) n) σ' hp'
      by_cases hd : i = r - 1 ∧ j = t
      · obtain ⟨hi, hj⟩ := hd
        subst hi hj
        rw [writeTgt_tgt, writeTgt_tgt, upd_self, upd_self]
        exact hκ
      · rw [writeTgt_tgt, writeTgt_tgt, upd_other _ _ _ _ _ _ hd,
          upd_other _ _ _ _ _ _ hd, hτ, hτ']
        by_cases hc : j = t ∧ i < min (n + t + 1) n
        · rw [if_pos hc, if_pos hc, hκ]
          ring
        · rw [if_neg hc, if_neg hc]
          exact hrel i j
    have hpb : (step2Body n m (σ, r) t).1.perc = P := by
      rw [step2Body_perc]; exact hp
    have hpb' : (step2Body n m (σ', r) t).1.perc = P := by
      rw [step2Body_perc]; exact hp'
    have := ih (step2Body n m (σ, r) t).1 (step2Body n m (σ', r) t).1
      (step2Body n m (σ, r) t).2 hpb hpb' hbody
    intro i j
    have hη : ∀ st : EngState × ℕ, st = (st.1, st.2) := fun st => rfl
    rw [hη (step2Body n m (σ', r) t), hη (step2Body n m (σ, r) t), hsnd]
    exact this i j

lemma calc_scale (P : ℕ → ℕ → ℚ) (n m : ℕ) (T k : ℚ) (A : ℕ → ℕ → ℚ)
    (h : calculate_material_requirements P n m T = Except.ok A) :
    ∃ A', calculate_material_requirements P n m (k * T) = Except.ok A' ∧
      ∀ i j, A' i j = k * A i j := by
  obtain ⟨htot, hA⟩ := calc_ok_elim P n m T A h
  have htot' : mixTotal P n m (k * T) = k * T := by
    rw [mixTotal_scale, htot]
  obtain ⟨A', h'⟩ := calc_ok_of_total P n m (k * T) htot'
  obtain ⟨-, hA'⟩ := calc_ok_elim P n m (k * T) A' h'
  refine ⟨A', h', ?_⟩
  have hp0 : (writeTgt (step1State P n m T).1 (n - 1) (m - 1)
      (step1State P n m T).2).perc = P := by
    rw [writeTgt_perc, step1State_perc]
  have hp0' : (writeTgt (step1State P n m (k * T)).1 (n - 1) (m - 1)
      (step1State P n m (k * T)).2).perc = P := by
    rw [writeTgt_perc, step1State_perc]
  have hrel0 : ∀ i j,
      (writeTgt (step1State P n m (k * T)).1 (n - 1) (m - 1)
        (step1State P n m (k * T)).2).tgt i j
      = k * (writeTgt (step1State P n m T).1 (n - 1) (m - 1)
        (step1State P n m T).2).tgt i j := by
    intro i j
    by_cases hd : i = n - 1 ∧ j = m - 1
    · obtain ⟨hi, hj⟩ := hd
      subst hi hj
      rw [writeTgt_tgt, writeTgt_tgt, upd_self, upd_self, step1State_total,
        step1State_total, htot, htot']
    · rw [writeTgt_tgt, writeTgt_tgt, upd_other _ _ _ _ _ _ hd,
        upd_other _ _ _ _ _ _ hd, step1State_tgt, step1State_tgt]
      by_cases hc : j = m - 1 ∧ i < n
      · rw [if_pos hc, if_pos hc]
        ring
      · rw [if_neg hc, if_neg hc, mul_zero]
  intro i j
  rw [hA, hA']
  exact step2_foldl_scale P n m k ((List.range (m - 1)).reverse) _ _ (n - 1)
    hp0 hp0' hrel0 i j

lemma updFold_char (g : ℕ → ℚ) (t : ℕ) : ∀ (N : ℕ) (B : ℕ → ℕ → ℚ)
    (i j : ℕ),
    ((List.range N).foldl (fun B i => upd B i t (g i)) B) i j
      = if j = t ∧ i < N then g i else B i j := by
  intro N
  induction N with
  | zero => intro B i j; simp
  | succ N ih =>
    intro B i j
    rw [List.range_succ, List.foldl_append]
    simp only [List.foldl_cons, List.foldl_nil]
    by_cases hd : i = N ∧ j = t
    · obtain ⟨hi, hj⟩ := hd
      subst hi hj
      rw [upd_self, if_pos ⟨rfl, Nat.lt_succ_self i⟩]
    · rw [upd_other _ _ _ _ _ _ hd, ih]
      by_cases hjt : j = t
      · subst hjt
        have hne : ¬ i = N := fun hh => hd ⟨hh, rfl⟩
        have hiff : i < N ↔ i < N + 1 := by omega
        simp [hiff]
      · simp [hjt]

lemma sum_filter_ne_zero : ∀ l : List ℚ,
    (l.filter fun x => decide (x ≠ 0)).sum = l.sum := by
  intro l
  induction l with
  | nil => rfl
  | cons a l ih =>
    by_cases ha : a = 0
    · subst ha
      rw [List.filter_cons, if_neg (by simp), List.sum_cons, ih, zero_add]
    · rw [List.filter_cons, if_pos (by simp [ha]), List.sum_cons,
        List.sum_cons, ih]

lemma nonzeroColSum_eq_sum (P : ℕ → ℕ → ℚ) (n j : ℕ) :
    nonzeroColSum P n j = ∑ i ∈ Finset.range n, P i j := by
  rw [nonzeroColSum, sum_filter_ne_zero, sum_map_range]

lemma npIsClose_100_iff (s : ℚ) :
    npIsClose s 100 = true ↔ |s - 100| ≤ 1001 / 1000000 := by
  simp only [npIsClose, decide_eq_true_eq]
  rw [show |(100 : ℚ)| = 100 from abs_of_pos (by norm_num)]
  norm_num

lemma findBadColumn_none_iff (P : ℕ → ℕ → ℚ) (n : ℕ) : ∀ l : List ℕ,
    findBadColumn P n l = none ↔
      ∀ j ∈ l, npIsClose (nonzeroColSum P n j) 100 = true := by
  intro l
  induction l with
  | nil => simp [findBadColumn]
  | cons a l ih =>
    simp only [findBadColumn]
    by_cases hc : npIsClose (nonzeroColSum P n a) 100 = true
    · rw [if_pos hc]
      simp [hc, ih]
    · rw [if_neg hc]
      simp only [List.mem_cons]
      constructor
      · intro hfalse
        exact absurd hfalse (by simp)
      · intro hall
        exact absurd (hall a (Or.inl rfl)) hc

lemma findBadColumn_some_char (P : ℕ → ℕ → ℚ) (n : ℕ) : ∀ (l : List ℕ)
    (j : ℕ) (s : ℚ), findBadColumn P n l = some (j, s) →
      j ∈ l ∧ s = nonzeroColSum P n j ∧
        npIsClose (nonzeroColSum P n j) 100 = false := by
  intro l
  induction l with
  | nil => intro j s h; exact absurd h (by simp [findBadColumn])
  | cons a l ih =>
    intro j s h
    simp only [findBadColumn] at h
    by_cases hc : npIsClose (nonzeroColSum P n a) 100 = true
    · rw [if_pos hc] at h
      obtain ⟨hmem, hs, hbad⟩ := ih j s h
      exact ⟨List.mem_cons_of_mem a hmem, hs, hbad⟩
    · rw [if_neg hc] at h
      obtain ⟨hj, hs⟩ := Prod.mk.injEq .. ▸ Option.some.inj h
      subst hj
      exact ⟨List.mem_cons_self a l, hs.symm,
        Bool.not_eq_true _ ▸ Bool.of_not_eq_true hc⟩

lemma validate_true_iff (P : ℕ → ℕ → ℚ) (n m : ℕ) :
    validate_percentage_table P n m = true ↔
      ∀ j, j < m → |nonzeroColSum P n j - 100| ≤ 1001 / 1000000 := by
  rw [validate_percentage_table, Option.isNone_iff_eq_none,
    findBadColumn_none_iff]
  constructor
  · intro h j hj
    rw [← npIsClose_100_iff]
    exact h j (List.mem_range.mpr hj)
  · intro h j hj
    rw [npIsClose_100_iff]
    exact h j (List.mem_range.mp hj)

lemma validate_false_iff (P : ℕ → ℕ → ℚ) (n m : ℕ) :
    validate_percentage_table P n m = false ↔
      ∃ j, j < m ∧ 1001 / 1000000 < |nonzeroColSum P n j - 100| := by
  rw [← Bool.not_eq_true, validate_true_iff]
  push_neg
  rfl

lemma plan_ok_of_validate (P : ℕ → ℕ → ℚ) (n m : ℕ) (T : ℚ)
    (hv : validate_percentage_table P n m = true) :
    planning_calculate_material_requirements P n m T
      = Except.ok ((List.range (m - 1)).reverse.foldl (planStep2Body P n m)
        ((List.range n).foldl
          (fun A i => upd A i (m - 1) (T * P i (m - 1) / 100)) zeroTable)) := by
  rw [planning_calculate_material_requirements, if_pos hv]

lemma plan_ok_elim (P : ℕ → ℕ → ℚ) (n m : ℕ) (T : ℚ) (A : ℕ → ℕ → ℚ)
    (h : planning_calculate_material_requirements P n m T = Except.ok A) :
    validate_percentage_table P n m = true ∧
    A = (List.range (m - 1)).reverse.foldl (planStep2Body P n m)
      ((List.range n).foldl
        (fun A i => upd A i (m - 1) (T * P i (m - 1) / 100)) zeroTable) := by
  by_cases hv : validate_percentage_table P n m = true
  · rw [plan_ok_of_validate P n m T hv] at h
    exact ⟨hv, (Except.ok.inj h).symm⟩
  · rw [planning_calculate_material_requirements, if_neg hv] at h
    exact absurd h (by simp)

lemma plan_error_of_invalid (P : ℕ → ℕ → ℚ) (n m : ℕ) (T : ℚ)
    (hv : validate_percentage_table P n m = false) :
    planning_calculate_material_requirements P n m T
      = Except.error "Invalid percentage table" := by
  rw [planning_calculate_material_requirements,
    if_neg (by rw [hv]; simp)]

lemma planStep2Body_zero (P : ℕ → ℕ → ℚ) (n m : ℕ) (B : ℕ → ℕ → ℚ)
    (hzero : ∀ i j', j' + 1 < m → B i j' = 0) (j : ℕ) :
    ∀ i j', j' + 1 < m → planStep2Body P n m B j i j' = 0 := by
  intro i j' hj'
  have hguard : ¬ n + j < n := by omega
  simp only [planStep2Body, if_neg hguard]
  have hmix : (((List.range m).drop (j + 1)).map
      fun _ : ℕ => (0 : ℚ)).sum = 0 := by
    refine List.sum_eq_zero fun x hx => ?_
    simp only [List.mem_map] at hx
    obtain ⟨k, -, hk⟩ := hx
    exact hk.symm
  rw [hmix, updFold_char]
  by_cases hc : j' = j ∧ i < min (n + j + 1) n
  · rw [if_pos hc]
    ring
  · rw [if_neg hc]
    exact hzero i j' hj'

lemma plan_foldl_zero (P : ℕ → ℕ → ℚ) (n m : ℕ) : ∀ (js : List ℕ)
    (B : ℕ → ℕ → ℚ), (∀ i j', j' + 1 < m → B i j' = 0) →
    ∀ i j', j' + 1 < m → (js.foldl (planStep2Body P n m) B) i j' = 0 := by
  intro js
  induction js with
  | nil => intro B hB; exact hB
  | cons a js ih =>
    intro B hB
    rw [List.foldl_cons]
    exact ih (planStep2Body P n m B a) (planStep2Body_zero P n m B hB a)

/-- The off-by-`n` guard `if n+j < target_table.shape[0]` in the planning
variant is always false, so every column before the last one of its output is
identically zero. -/
lemma plan_cols_zero (P : ℕ → ℕ → ℚ) (n m : ℕ) (T : ℚ) (A : ℕ → ℕ → ℚ)
    (h : planning_calculate_material_requirements P n m T = Except.ok A) :
    ∀ i j, j + 1 < m → A i j = 0 := by
  obtain ⟨-, hA⟩ := plan_ok_elim P n m T A h
  intro i j hj
  rw [hA]
  refine plan_foldl_zero P n m _ _ (fun i j' hj' => ?_) i j hj
  rw [updFold_char]
  rw [if_neg (by omega)]
  rfl

lemma get_raw_material_totals_length (A : ℕ → ℕ → ℚ) (rawCount m : ℕ) :
    (get_raw_material_totals A rawCount m).length = rawCount := by
  simp [get_raw_material_totals]

lemma get_raw_material_totals_entry (A : ℕ → ℕ → ℚ) (rawCount m i : ℕ)
    (hi : i < rawCount) :
    (get_raw_material_totals A rawCount m).getD i 0
      = ∑ j ∈ Finset.range m, A i j := by
  rw [get_raw_material_totals, List.getD_eq_getElem?_getD,
    List.getElem?_map, List.getElem?_range hi]
  simp [sum_map_range]

lemma validate_exConserve : validate_percentage_table exConserve 2 1 = true := by
  rw [validate_true_iff]
  intro j hj
  have hj0 : j = 0 := by omega
  subst hj0
  rw [nonzeroColSum_eq_sum]
  norm_num [Finset.sum_range_succ, exConserve, abs_le]

lemma mixTotal_exConserve : mixTotal exConserve 2 1 100 = 100 := by
  norm_num [mixTotal, Finset.sum_range_succ, exConserve]

lemma validate_exTol : validate_percentage_table exTol 1 1 = true := by
  rw [validate_true_iff]
  intro j hj
  have hj0 : j = 0 := by omega
  subst hj0
  rw [nonzeroColSum_eq_sum]
  norm_num [Finset.sum_range_succ, exTol, abs_le]

lemma mixTotal_exTol : mixTotal exTol 1 1 100 = 100 + 1 / 2000000 := by
  norm_num [mixTotal, Finset.sum_range_succ, exTol]

lemma nonzeroColSum_exClose : nonzeroColSum exClose 1 0 = 100 + 1 / 2000 := by
  rw [nonzeroColSum_eq_sum]
  norm_num [Finset.sum_range_succ, exClose]

lemma validate_exClose : validate_percentage_table exClose 1 1 = true := by
  rw [validate_true_iff]
  intro j hj
  have hj0 : j = 0 := by omega
  subst hj0
  rw [nonzeroColSum_exClose]
  norm_num [abs_le]

lemma nonzeroColSum_ex95 : nonzeroColSum ex95 1 0 = 95 := by
  rw [nonzeroColSum_eq_sum]
  norm_num [Finset.sum_range_succ, ex95]

lemma nonzeroColSum_exSelf : nonzeroColSum exSelf 2 0 = 100 := by
  rw [nonzeroColSum_eq_sum]
  norm_num [Finset.sum_range_succ, exSelf]

lemma validate_ex3 : validate_percentage_table ex3 3 2 = true := by
  rw [validate_true_iff]
  intro j hj
  interval_cases j <;>
    · rw [nonzeroColSum_eq_sum]
      norm_num [Finset.sum_range_succ, ex3, abs_le]

lemma mixTotal_ex3 : mixTotal ex3 3 2 100 = 100 := by
  norm_num [mixTotal, Finset.sum_range_succ, ex3]

/-- Claim C1, corrected.  The claim asserts that for every validator-accepted
table and target `T > 0` with a successful explosion, the final column of the
returned quantity table sums to `T` (±1e-6).  In the code the success branch
overwrites the diagonal cell `A[n-1, m-1]` with `mix_m_total = T` on top of
the proportional fill, so the final column actually sums (exactly) to
`2T - T·P[n-1, m-1]/100` — `2T` for any table respecting the precedence
invariant. -/
theorem C1_final_column_total (P : ℕ → ℕ → ℚ) (n m : ℕ) (T : ℚ)
    (A : ℕ → ℕ → ℚ) (hm : 1 ≤ m) (hmn : m ≤ n)
    (hv : validate_percentage_table P n m = true) (hT : 0 < T)
    (h : calculate_material_requirements P n m T = Except.ok A) :
    ∑ i ∈ Finset.range n, A i (m - 1)
      = 2 * T - T * P (n - 1) (m - 1) / 100 := by
  obtain ⟨htot, -, hlast, -⟩ := calc_final_facts P n m T A hm hmn h
  have hn : 1 ≤ n := le_trans hm hmn
  have hnn : n - 1 + 1 = n := by omega
  have hsum : ∑ i ∈ Finset.range n, A i (m - 1)
      = (∑ i ∈ Finset.range (n - 1), A i (m - 1)) + A (n - 1) (m - 1) := by
    rw [← hnn, Finset.sum_range_succ]
    simp [hnn]
  have hAn : A (n - 1) (m - 1) = T := by
    rw [hlast (n - 1) (by omega), if_pos rfl]
  have hothers : ∑ i ∈ Finset.range (n - 1), A i (m - 1)
      = ∑ i ∈ Finset.range (n - 1), T * P i (m - 1) / 100 := by
    refine Finset.sum_congr rfl fun i hi => ?_
    have hilt := Finset.mem_range.mp hi
    rw [hlast i (by omega), if_neg (by omega)]
  have htot' : (∑ i ∈ Finset.range (n - 1), T * P i (m - 1) / 100)
      + T * P (n - 1) (m - 1) / 100 = T := by
    rw [← Finset.sum_range_succ, hnn]
    exact htot
  rw [hsum, hothers, hAn]
  linarith

/-- Witness for C1 at the concrete table `exConserve` with `T = 100`. -/
theorem C1_witness :
    validate_percentage_table exConserve 2 1 = true ∧ (0 : ℚ) < 100 ∧
    ∃ A, calculate_material_requirements exConserve 2 1 100 = Except.ok A ∧
      ∑ i ∈ Finset.range 2, A i 0
        = 2 * 100 - 100 * exConserve 1 0 / 100 := by
  obtain ⟨A, hA⟩ := calc_ok_of_total exConserve 2 1 100 mixTotal_exConserve
  exact ⟨validate_exConserve, by norm_num, A, hA,
    C1_final_column_total exConserve 2 1 100 A (by omega) (by omega)
      validate_exConserve (by norm_num) hA⟩

/-- Counterexample to C1 as stated: `exConserve` is accepted by the validator,
`T = 100 > 0`, the explosion succeeds, yet the final column sums to 200, which
is not within 1e-6 of 100. -/
theorem C1_counterexample :
    validate_percentage_table exConserve 2 1 = true ∧ (0 : ℚ) < 100 ∧
    ∃ A, calculate_material_requirements exConserve 2 1 100 = Except.ok A ∧
      ¬ |(∑ i ∈ Finset.range 2, A i 0) - 100| ≤ 1 / 1000000 := by
  obtain ⟨A, hA⟩ := calc_ok_of_total exConserve 2 1 100 mixTotal_exConserve
  obtain ⟨-, -, hlast, -⟩ :=
    calc_final_facts exConserve 2 1 100 A (by omega) (by omega) hA
  have h0 : A 0 0 = 100 := by
    have := hlast 0 (by omega)
    rw [if_neg (by omega)] at this
    rw [this]
    norm_num [exConserve]
  have h1 : A 1 0 = 100 := by
    have := hlast 1 (by omega)
    rw [if_pos rfl] at this
    exact this
  refine ⟨validate_exConserve, by norm_num, A, hA, ?_⟩
  rw [Finset.sum_range_succ, Finset.sum_range_succ, Finset.sum_range_zero,
    h0, h1]
  norm_num

/-- Claim C2, corrected.  The claim asserts the explosion fails with
`TargetMismatchError` iff `|mix_m_total - target| > 1e-6`.  The code compares
with exact equality (`mix_m_total == target_amount`), so it fails iff the sum
differs from the target at all; on failure only the error data
`(mix_m_total, target_amount)` is produced, never a quantity table. -/
theorem C2_mismatch_exact_equality (P : ℕ → ℕ → ℚ) (n m : ℕ) (T : ℚ) :
    calculate_material_requirements P n m T
        = Except.error (mixTotal P n m T, T) ↔ mixTotal P n m T ≠ T :=
  calc_error_char P n m T

/-- Witness for C2 at the concrete table `exTol` with `T = 100`. -/
theorem C2_witness :
    calculate_material_requirements exTol 1 1 100
      = Except.error (100 + 1 / 2000000, 100) ∧
    mixTotal exTol 1 1 100 = 100 + 1 / 2000000 := by
  refine ⟨?_, mixTotal_exTol⟩
  have h := (C2_mismatch_exact_equality exTol 1 1 100).mpr
    (by rw [mixTotal_exTol]; norm_num)
  rw [mixTotal_exTol] at h
  exact h

/-- Counterexample to C2 as stated: for `exTol` (validator-accepted) the
mix total misses the target by only 5e-7 ≤ 1e-6, yet the code still raises. -/
theorem C2_counterexample :
    validate_percentage_table exTol 1 1 = true ∧
    |mixTotal exTol 1 1 100 - 100| ≤ 1 / 1000000 ∧
    isErrorE (calculate_material_requirements exTol 1 1 100) = true := by
  refine ⟨validate_exTol, ?_, ?_⟩
  · rw [mixTotal_exTol]
    rw [abs_le]
    constructor <;> norm_num
  · rw [(calc_error_char exTol 1 1 100).mpr (by rw [mixTotal_exTol]; norm_num)]
    rfl

/-- Claim C3, confirmed: after a successful explosion, every diagonal cell
`A[(n-m)+j, j]` holds `required[j]`, where `required[m-1]` is the target
amount and, for `j < m-1`, `required[j]` is the sum of mix `j`'s row over the
later columns. -/
theorem C3_diagonal_required (P : ℕ → ℕ → ℚ) (n m : ℕ) (T : ℚ)
    (A : ℕ → ℕ → ℚ) (hm : 1 ≤ m) (hmn : m ≤ n)
    (h : calculate_material_requirements P n m T = Except.ok A)
    (j : ℕ) (hj : j < m) :
    A (n - m + j) j = requiredOf A n m T j := by
  obtain ⟨-, -, hlast, hcols⟩ := calc_final_facts P n m T A hm hmn h
  by_cases hjm : j + 1 = m
  · have hd : n - m + j = n - 1 := by omega
    have hm1 : j = m - 1 := by omega
    rw [requiredOf, if_pos hjm, hd, hm1]
    rw [hlast (n - 1) (by omega), if_pos rfl]
  · have hjm' : j + 1 < m := by omega
    rw [requiredOf, if_neg hjm]
    exact (hcols j hjm').2

/-- Witness for C3 at the concrete table `exConserve` with `T = 100`. -/
theorem C3_witness :
    ∃ A, calculate_material_requirements exConserve 2 1 100 = Except.ok A ∧
      A 1 0 = requiredOf A 2 1 100 0 := by
  obtain ⟨A, hA⟩ := calc_ok_of_total exConserve 2 1 100 mixTotal_exConserve
  exact ⟨A, hA, C3_diagonal_required exConserve 2 1 100 A (by omega)
    (by omega) hA 0 (by omega)⟩

/-- Claim C4, corrected.  The claim asserts the proportionality
`A[i,j]/required[j] = P[i,j]/100` for every eligible row `i ≤ (n-m)+j`.  At
the diagonal row `i = (n-m)+j` itself the engine overwrites the cell with
`required[j]`, so the ratio there is 1, not `P/100`; proportionality holds for
the rows strictly below the diagonal. -/
theorem C4_proportionality_below_diagonal (P : ℕ → ℕ → ℚ) (n m : ℕ)
    (T : ℚ) (A : ℕ → ℕ → ℚ) (hm : 1 ≤ m) (hmn : m ≤ n)
    (h : calculate_material_requirements P n m T = Except.ok A)
    (j : ℕ) (hj : j < m) (i : ℕ) (hi : i < n - m + j)
    (hreq : 0 < requiredOf A n m T j) :
    A i j / requiredOf A n m T j = P i j / 100 := by
  obtain ⟨-, -, hlast, hcols⟩ := calc_final_facts P n m T A hm hmn h
  have hin : i < n := by omega
  by_cases hjm : j + 1 = m
  · have hrT : requiredOf A n m T j = T := by
      rw [requiredOf, if_pos hjm]
    have hm1 : j = m - 1 := by omega
    have hAij : A i j = T * P i j / 100 := by
      rw [hm1, hlast i hin, if_neg (by omega)]
    rw [hAij, hrT]
    have hT0 : T ≠ 0 := by
      rw [hrT] at hreq
      exact ne_of_gt hreq
    field_simp
    ring
  · have hjm' : j + 1 < m := by omega
    have hrd : requiredOf A n m T j = A (n - m + j) j := by
      rw [requiredOf, if_neg hjm]
      exact (hcols j hjm').2.symm
    have hAij : A i j = A (n - m + j) j * P i j / 100 :=
      (hcols j hjm').1 i hin (by omega)
    have hD0 : A (n - m + j) j ≠ 0 := by
      rw [hrd] at hreq
      exact ne_of_gt hreq
    rw [hAij, hrd]
    field_simp
    ring

/-- Witness for C4 at the concrete table `exConserve`, row 0 strictly below
the diagonal of column 0. -/
theorem C4_witness :
    ∃ A, calculate_material_requirements exConserve 2 1 100 = Except.ok A ∧
      0 < requiredOf A 2 1 100 0 ∧
      A 0 0 / requiredOf A 2 1 100 0 = exConserve 0 0 / 100 := by
  obtain ⟨A, hA⟩ := calc_ok_of_total exConserve 2 1 100 mixTotal_exConserve
  have hreq : requiredOf A 2 1 100 0 = 100 := by
    rw [requiredOf, if_pos rfl]
  refine ⟨A, hA, by rw [hreq]; norm_num, ?_⟩
  exact C4_proportionality_below_diagonal exConserve 2 1 100 A (by omega)
    (by omega) hA 0 (by omega) 0 (by omega) (by rw [hreq]; norm_num)

/-- Counterexample to C4 as stated: at the diagonal row `i = (n-m)+j = 1`
(eligible, since the claim allows `i ≤ (n-m)+j`) of `exConserve`, the ratio is
`100/100 = 1` while `P[1,0]/100 = 0`, so the deviation
`|A[1,0]/required[0] - P[1,0]/100| = 1` exceeds the 1e-6 tolerance. -/
theorem C4_counterexample :
    ∃ A, calculate_material_requirements exConserve 2 1 100 = Except.ok A ∧
      0 < requiredOf A 2 1 100 0 ∧ (1 : ℕ) ≤ 2 - 1 + 0 ∧
      1 / 1000000 < |A 1 0 / requiredOf A 2 1 100 0 - exConserve 1 0 / 100| := by
  obtain ⟨A, hA⟩ := calc_ok_of_total exConserve 2 1 100 mixTotal_exConserve
  obtain ⟨-, -, hlast, -⟩ :=
    calc_final_facts exConserve 2 1 100 A (by omega) (by omega) hA
  have hreq : requiredOf A 2 1 100 0 = 100 := by
    rw [requiredOf, if_pos rfl]
  have h1 : A 1 0 = 100 := by
    have := hlast 1 (by omega)
    rw [if_pos rfl] at this
    exact this
  refine ⟨A, hA, by rw [hreq]; norm_num, by omega, ?_⟩
  rw [hreq, h1, show exConserve 1 0 = 0 by norm_num [exConserve],
    show (100 : ℚ) / 100 - 0 / 100 = 1 by norm_num,
    abs_of_pos (by norm_num : (0 : ℚ) < 1)]
  norm_num

/-- Claim C5, corrected.  The claim asserts the validator rejects exactly the
columns with `|s - 100| > 1e-6`.  The code calls
`np.isclose(s, 100.0, atol=1e-6)` leaving numpy's default `rtol=1e-5` active,
so the effective threshold is `1e-6 + 1e-5·100 = 0.001001`: the validator
fails (reporting the first bad column and its sum) iff some column is off by
more than `1001/1000000`, and a rejected table never reaches the planning
explosion engine. -/
theorem C5_validator_tolerance (P : ℕ → ℕ → ℚ) (n m : ℕ) :
    (validate_percentage_table P n m = false ↔
      ∃ j, j < m ∧ 1001 / 1000000 < |nonzeroColSum P n j - 100|) ∧
    (∀ j s, findBadColumn P n (List.range m) = some (j, s) →
      j < m ∧ s = nonzeroColSum P n j ∧ 1001 / 1000000 < |s - 100|) ∧
    (∀ T : ℚ, validate_percentage_table P n m = false →
      planning_calculate_material_requirements P n m T
        = Except.error "Invalid percentage table") := by
  refine ⟨validate_false_iff P n m, ?_, ?_⟩
  · intro j s hfb
    obtain ⟨hmem, hs, hbad⟩ := findBadColumn_some_char P n (List.range m) j s hfb
    refine ⟨List.mem_range.mp hmem, hs, ?_⟩
    rw [hs]
    by_contra hle
    push_neg at hle
    rw [(npIsClose_100_iff (nonzeroColSum P n j)).mpr hle] at hbad
    exact absurd hbad (by simp)
  · intro T hv
    exact plan_error_of_invalid P n m T hv

/-- Witness for C5 at the spec's own rejection example: a column summing
to 95. -/
theorem C5_witness :
    validate_percentage_table ex95 1 1 = false ∧
    planning_calculate_material_requirements ex95 1 1 100
      = Except.error "Invalid percentage table" := by
  have h := C5_validator_tolerance ex95 1 1
  have habs : |nonzeroColSum ex95 1 0 - 100| = 5 := by
    rw [nonzeroColSum_ex95, show (95 : ℚ) - 100 = -5 by norm_num, abs_neg,
      abs_of_pos (by norm_num : (0 : ℚ) < 5)]
  have hv : validate_percentage_table ex95 1 1 = false :=
    h.1.mpr ⟨0, by omega, by rw [habs]; norm_num⟩
  exact ⟨hv, h.2.2 100 hv⟩

/-- Counterexample to C5 as stated: `exClose`'s column sums to `100.0005`,
which is off by more than 1e-6, yet the validator accepts it (no
`ColumnSumError` is produced). -/
theorem C5_counterexample :
    validate_percentage_table exClose 1 1 = true ∧
    findBadColumn exClose 1 (List.range 1) = none ∧
    1 / 1000000 < |nonzeroColSum exClose 1 0 - 100| := by
  refine ⟨validate_exClose, Option.isNone_iff_eq_none.mp validate_exClose, ?_⟩
  rw [nonzeroColSum_exClose, show (100 : ℚ) + 1 / 2000 - 100 = 1 / 2000
    by norm_num, abs_of_pos (by norm_num : (0 : ℚ) < 1 / 2000)]
  norm_num

/-- Claim C6, confirmed: explosion is homogeneous in the target amount — if
the run at target `T` succeeds, the run at `k·T` succeeds and every cell of
its quantity table is `k` times the corresponding cell. -/
theorem C6_linearity (P : ℕ → ℕ → ℚ) (n m : ℕ) (T k : ℚ) (A : ℕ → ℕ → ℚ)
    (hv : validate_percentage_table P n m = true)
    (h : calculate_material_requirements P n m T = Except.ok A)
    (hk : 0 < k) :
    ∃ A', calculate_material_requirements P n m (k * T) = Except.ok A' ∧
      ∀ i j, A' i j = k * A i j :=
  calc_scale P n m T k A h

/-- Witness for C6 at `exConserve`, doubling the target. -/
theorem C6_witness :
    ∃ A A',
      calculate_material_requirements exConserve 2 1 100 = Except.ok A ∧
      calculate_material_requirements exConserve 2 1 (2 * 100)
        = Except.ok A' ∧
      A' 0 0 = 2 * A 0 0 := by
  obtain ⟨A, hA⟩ := calc_ok_of_total exConserve 2 1 100 mixTotal_exConserve
  obtain ⟨A', hA', hsc⟩ := C6_linearity exConserve 2 1 100 2 A
    validate_exConserve hA (by norm_num)
  exact ⟨A, A', hA, hA', hsc 0 0⟩

/-- Claim C7, confirmed: the aggregator returns a vector of length
`raw_material_count` whose entry `i` is the sum of row `i` of the quantity
table over all `m` columns. -/
theorem C7_raw_material_totals (A : ℕ → ℕ → ℚ) (n m rawCount : ℕ)
    (hmn : m ≤ n) (hraw : rawCount = n - m) :
    (get_raw_material_totals A rawCount m).length = rawCount ∧
    ∀ i, i < rawCount →
      (get_raw_material_totals A rawCount m).getD i 0
        = ∑ j ∈ Finset.range m, A i j :=
  ⟨get_raw_material_totals_length A rawCount m,
    fun i hi => get_raw_material_totals_entry A rawCount m i hi⟩

/-- Witness for C7 on the article's 9×4 table (5 raw materials). -/
theorem C7_witness :
    (get_raw_material_totals exArticle 5 4).length = 5 ∧
    (get_raw_material_totals exArticle 5 4).getD 0 0
      = ∑ j ∈ Finset.range 4, exArticle 0 j := by
  have h := C7_raw_material_totals exArticle 9 4 5 (by omega) (by omega)
  exact ⟨h.1, h.2 0 (by omega)⟩

/-- Claim C8, confirmed: an explosion run — successful or failed — leaves the
percentage-table component of the engine state untouched; every assignment of
the engine writes into the freshly allocated target table. -/
theorem C8_frame_percentage_table (P : ℕ → ℕ → ℚ) (n m : ℕ) (T : ℚ) :
    (calcRun P n m T).1.perc = P :=
  calcRun_perc P n m T

/-- Claim C9, confirmed: the validator checks nothing but the column sums —
any table whose columns' non-zero sums are within 1e-6 of 100 is accepted and
passes on to the planning explosion engine, whether or not the precedence
invariant holds. -/
theorem C9_validator_ignores_precedence (P : ℕ → ℕ → ℚ) (n m : ℕ)
    (h : ∀ j, j < m → |nonzeroColSum P n j - 100| ≤ 1 / 1000000) :
    validate_percentage_table P n m = true ∧
    ∀ T : ℚ, ∃ A,
      planning_calculate_material_requirements P n m T = Except.ok A := by
  have hv : validate_percentage_table P n m = true := by
    rw [validate_true_iff]
    intro j hj
    exact le_trans (h j hj) (by norm_num)
  exact ⟨hv, fun T => ⟨_, plan_ok_of_validate P n m T hv⟩⟩

/-- Witness for C9 at `exSelf`, a table whose single mix consumes itself at
50 % — a violation of the precedence invariant that the validator accepts. -/
theorem C9_witness :
    validate_percentage_table exSelf 2 1 = true ∧
    ∃ A, planning_calculate_material_requirements exSelf 2 1 100
      = Except.ok A := by
  have h := C9_validator_ignores_precedence exSelf 2 1 (fun j hj => by
    have hj0 : j = 0 := by omega
    subst hj0
    rw [nonzeroColSum_exSelf, sub_self, abs_zero]
    norm_num)
  exact ⟨h.1, h.2 100⟩

/-- Claim C10 (a bug in the planning variant): its backward sweep guards both
the row-sum accumulation and the diagonal write with
`n + j < target_table.shape[0]`, where `n` is already the total row count, so
the guard is always false and `mix_j_amount = 0` for every mix `j < m-1`,
while `_calculate_material_requirements` computes the true row sum.  On `ex3`
with target 100 the mix-1 diagonal cell (`required[0]`) and the raw-material
cell of column 0 are 50 in the calculations output but 0 in the planning
output. -/
theorem C10_backward_sweep_divergence :
    (∃ A, planning_calculate_material_requirements ex3 3 2 100 = Except.ok A ∧
      A 1 0 = 0 ∧ A 0 0 = 0) ∧
    (∃ A, calculate_material_requirements ex3 3 2 100 = Except.ok A ∧
      A 1 0 = 50 ∧ A 0 0 = 50) := by
  constructor
  · have hok := plan_ok_of_validate ex3 3 2 100 validate_ex3
    exact ⟨_, hok, plan_cols_zero ex3 3 2 100 _ hok 1 0 (by omega),
      plan_cols_zero ex3 3 2 100 _ hok 0 0 (by omega)⟩
  · obtain ⟨A, hA⟩ := calc_ok_of_total ex3 3 2 100 mixTotal_ex3
    obtain ⟨-, -, hlast, hcols⟩ :=
      calc_final_facts ex3 3 2 100 A (by omega) (by omega) hA
    have hA11 : A 1 1 = 50 := by
      have h1 := hlast 1 (by omega)
      rw [if_neg (by omega)] at h1
      rw [h1]
      norm_num [ex3]
    have hA10 : A 1 0 = 50 := by
      have hd := (hcols 0 (by omega)).2
      rw [show (3 : ℕ) - 2 + 0 = 1 from rfl] at hd
      rw [hd, Finset.sum_Ico_succ_top (by omega), Finset.Ico_self,
        Finset.sum_empty, zero_add, hA11]
    have hA00 : A 0 0 = 50 := by
      have hp := (hcols 0 (by omega)).1 0 (by omega) (by omega)
      rw [show (3 : ℕ) - 2 + 0 = 1 from rfl] at hp
      rw [hp, hA10]
      norm_num [ex3]
    exact ⟨A, hA, hA10, hA00⟩
